/-
  Verification of the single-position backtesting core of the
  Trading-Analytics-Dashboard repository (cloudfare-api/src/index.ts).

  The TypeScript source is shallowly embedded: JavaScript numbers are
  modelled by ℚ (exact rationals), `x.toFixed(d)` by decimal rounding,
  `NaN` / non-finite indicator values by `Option ℚ` (`none` = not finite),
  date strings are opaque `String`s, and the mutable single-pass loops of
  the strategies become folds over an explicit state.  `Date.parse` and
  `Math.pow` (used only by the annualized-return metric) are modelled as
  function parameters, since they are external primitives.
-/
import Mathlib

/-- Model of `clampNum(v, d)` in the source: round to `d` decimal digits
(JavaScript `+v.toFixed(d)`); the non-finite guard of the source is vacuous
over ℚ. -/
def roundDec (d : ℕ) (q : ℚ) : ℚ := (round (q * 10 ^ d) : ℤ) / 10 ^ d

/-- Model of `clampNum` with its default `d = 2` (used for prices, pnl, equity). -/
def clampNum (q : ℚ) : ℚ := roundDec 2 q

/-- Model of `+x.toFixed(6)` (used for return fractions and ratio metrics). -/
def round6 (q : ℚ) : ℚ := roundDec 6 q

/-- Model of `mean(xs)` from the source: arithmetic mean, `0` for an empty list. -/
def mean (xs : List ℚ) : ℚ := if xs.length = 0 then 0 else xs.sum / xs.length

/-- One daily bar (`OHLC` in the source).  `open_` renames the keyword
`open`. -/
structure OHLC where
  date : String
  open_ : ℚ
  high : ℚ
  low : ℚ
  close : ℚ
deriving DecidableEq, Repr

/-- A completed trade (`Trade` in the source). -/
structure Trade where
  entry_date : String
  entry_price : ℚ
  exit_date : String
  exit_price : ℚ
  pnl : ℚ
  return_pct : ℚ
deriving DecidableEq, Repr

/-- One point of the equity curve. -/
structure EquityPoint where
  date : String
  equity : ℚ
deriving DecidableEq, Repr

/-- The summary metrics record (`Metrics` in the source). -/
structure Metrics where
  total_pnl : ℚ
  win_rate : ℚ
  annualized_return : ℚ
  max_drawdown : ℚ
  final_equity : ℚ
  initial_equity : ℚ
deriving DecidableEq, Repr

/-- Position direction. -/
inductive Side where
  | long
  | short
deriving DecidableEq, Repr

/-- Sign of a direction: `pos.side==="long" ? 1 : -1`. -/
def Side.dir : Side → ℚ
  | .long => 1
  | .short => -1

/-- The optional parameter block forwarded to the adaptive strategies
(union of `BreakoutPctParams`, `BreakoutAtrParams`, `MeanRevParams`;
absent fields are `none`). -/
structure RawParams where
  allow_long : Option Bool := none
  allow_short : Option Bool := none
  take_profit_pct : Option ℚ := none
  stop_loss_pct : Option ℚ := none
  max_hold_days : Option ℚ := none
  cooldown_days : Option ℚ := none
  allow_immediate_reentry : Option Bool := none
  lookback : Option ℕ := none
  threshold_pct : Option ℚ := none
  atr_k : Option ℚ := none
  drop_pct : Option ℚ := none
deriving DecidableEq, Repr

/- ------------------------- Indicator library ------------------------- -/

/-- Model of `rmax(a, w, i)`: maximum of `a[max(0,i-w) .. i-1]`; `none` models the
`-Infinity` of an empty window. -/
def rmax (a : List ℚ) (w i : ℕ) : Option ℚ := ((a.take i).drop (i - w)).max?

/-- Model of `rmin(a, w, i)`: minimum of `a[max(0,i-w) .. i-1]`; `none` models the
`+Infinity` of an empty window. -/
def rmin (a : List ℚ) (w i : ℕ) : Option ℚ := ((a.take i).drop (i - w)).min?

/-- Model of `sma(a, w, i)`: mean of `a[max(0,i-w+1) .. i]`.  For `w ≥ 1` and
`i < a.length` the window is nonempty, so the source's `NaN` branch is
unreachable. -/
def sma (a : List ℚ) (w i : ℕ) : ℚ :=
  let win := (a.take (i + 1)).drop (i + 1 - w)
  win.sum / win.length

/-- True range of a bar given the previous close `pc`. -/
def trueRange (pc : ℚ) (b : OHLC) : ℚ :=
  max (b.high - b.low) (max |b.high - pc| |b.low - pc|)

/-- True ranges of the tail bars, with `pc` the close of the bar before. -/
def trListAux : ℚ → List OHLC → List ℚ
  | _, [] => []
  | pc, b :: rest => trueRange pc b :: trListAux b.close rest

/-- The `tr` array of `atrWilder`: bar 0 uses its own close as the
previous close. -/
def trList : List OHLC → List ℚ
  | [] => []
  | b :: rest => trueRange b.close b :: trListAux b.close rest

/-- The `atr` loop of `atrWilder`, processing the remaining true ranges.
State: current index `i`, running sum `s`, previously pushed value `prev`
(`none` models `NaN`, which propagates through the Wilder recurrence). -/
def atrGo (p : ℕ) (trAll : List ℚ) : ℕ → ℚ → Option ℚ → List ℚ → List (Option ℚ)
  | _, _, _, [] => []
  | i, s, prev, tri :: rest =>
    if i < p then
      let s' := s + tri
      let a : Option ℚ := if i + 1 = p then some (s' / p) else none
      a :: atrGo p trAll (i + 1) s' a rest
    else if i = p then
      let s' := s + tri - trAll.getD (i - p) 0
      some (s' / p) :: atrGo p trAll (i + 1) s' (some (s' / p)) rest
    else
      let a : Option ℚ := prev.map (fun pa => (pa * ((p : ℚ) - 1) + tri) / p)
      a :: atrGo p trAll (i + 1) s a rest

/-- Model of `atrWilder(b, p)`: Wilder's ATR; `none` models the `NaN` entries
before the seed. -/
def atrWilder (b : List OHLC) (p : ℕ) : List (Option ℚ) :=
  atrGo p (trList b) 0 0 none (trList b)

/- ----------------------- Effective parameters ------------------------ -/

/-- The `rets` list shared by `runBreakoutPct` and `runMeanReversion`:
`Math.abs((closes[i]-closes[i-1])/closes[i-1])` for `i = 1 ..`. -/
def absRets (closes : List ℚ) : List ℚ :=
  List.zipWith (fun prev cur => |(cur - prev) / prev|) closes closes.tail

/-- Model of `volPct`: the mean absolute daily return clamped to `[0.001, 0.05]`. -/
def volPct (closes : List ℚ) : ℚ := max 0.001 (min 0.05 (mean (absRets closes)))

/-- Breakout-percent effective lookback: `Math.max(5, Math.min(200, raw.lookback ?? 20))`. -/
def breakoutPctLookback (raw : RawParams) : ℕ := max 5 (min 200 (raw.lookback.getD 20))

/-- Breakout-percent effective trigger fraction:
`Math.max(0.001, Math.min(0.02, raw.threshold_pct ?? (0.6 * volPct)))`. -/
def breakoutPctThreshold (closes : List ℚ) (raw : RawParams) : ℚ :=
  max 0.001 (min 0.02 (raw.threshold_pct.getD (0.6 * volPct closes)))

/-- Model of `raw.allow_long ?? true`. -/
def effAllowLong (raw : RawParams) : Bool := raw.allow_long.getD true

/-- Model of `raw.allow_short ?? true`. -/
def effAllowShort (raw : RawParams) : Bool := raw.allow_short.getD true

/-- Breakout strategies: `Math.max(1, raw.max_hold_days ?? 5)`. -/
def effMaxHold (raw : RawParams) : ℚ := max 1 (raw.max_hold_days.getD 5)

/-- Breakout strategies: `raw.take_profit_pct ?? 0.02`. -/
def effTakeProfit (raw : RawParams) : ℚ := raw.take_profit_pct.getD 0.02

/-- Breakout strategies: `raw.stop_loss_pct ?? 0.01`. -/
def effStopLoss (raw : RawParams) : ℚ := raw.stop_loss_pct.getD 0.01

/-- Model of `Math.max(0, raw.cooldown_days ?? 0)`. -/
def effCooldown (raw : RawParams) : ℚ := max 0 (raw.cooldown_days.getD 0)

/-- Model of `raw.allow_immediate_reentry ?? true`. -/
def effAllowImm (raw : RawParams) : Bool := raw.allow_immediate_reentry.getD true

/-- Breakout-ATR effective lookback: `Math.max(10, Math.min(100, raw.lookback ?? 20))`. -/
def atrLookback (raw : RawParams) : ℕ := max 10 (min 100 (raw.lookback.getD 20))

/-- Breakout-ATR effective multiplier `atr_k` with its volatility-adaptive
default `+(0.5 * volAdj).toFixed(2)`. -/
def atrKEff (data : List OHLC) (raw : RawParams) : ℚ :=
  let closes := data.map (·.close)
  let atr := atrWilder data (atrLookback raw)
  let avgAtr := mean (atr.filterMap id)
  let avgPx := mean closes
  let baseK : ℚ := 0.5
  let volAdj := if 0 < avgPx then max 0.3 (min 0.8 ((avgAtr / avgPx) / 0.01)) else 1
  raw.atr_k.getD (clampNum (baseK * volAdj))

/-- Mean-reversion effective lookback: `Math.max(5, Math.min(100, raw.lookback ?? 20))`. -/
def mrLookback (raw : RawParams) : ℕ := max 5 (min 100 (raw.lookback.getD 20))

/-- Mean-reversion effective drop:
`Math.max(0.003, Math.min(0.025, raw.drop_pct ?? (0.8 * volPct)))`. -/
def mrDrop (closes : List ℚ) (raw : RawParams) : ℚ :=
  max 0.003 (min 0.025 (raw.drop_pct.getD (0.8 * volPct closes)))

/-- Mean-reversion: `Math.max(1, raw.max_hold_days ?? 1)`. -/
def mrMaxHold (raw : RawParams) : ℚ := max 1 (raw.max_hold_days.getD 1)

/-- Mean-reversion: `raw.take_profit_pct ?? 0`. -/
def mrTakeProfit (raw : RawParams) : ℚ := raw.take_profit_pct.getD 0

/-- Mean-reversion: `raw.stop_loss_pct ?? 0`. -/
def mrStopLoss (raw : RawParams) : ℚ := raw.stop_loss_pct.getD 0

/- --------------------- Position lifecycle loop ----------------------- -/

/-- The open-position slot `pos` of the strategy loops.  The source also
stores `entryPx`, which always equals `closes[entryIdx]` (it is set to the
current close at entry), so only the index is kept. -/
structure PosS where
  side : Side
  entryIdx : ℕ
deriving DecidableEq, Repr

/-- A completed trade identified by its direction and its entry/exit bar
indices; the emitted `Trade` record is a pure function of these (see
`renderTrade`). -/
structure TradeI where
  side : Side
  entryIdx : ℕ
  exitIdx : ℕ
deriving DecidableEq, Repr

/-- The mutable state of the strategy loops: the `trades` array, the
`pos` slot and `lastExit` (initially `-9999`). -/
structure LoopSt where
  trades : List TradeI
  pos : Option PosS
  lastExit : ℤ
deriving DecidableEq, Repr

/-- Direction-adjusted return of an open position at bar `i`:
`(c - pos.entryPx) / pos.entryPx * (pos.side === "long" ? 1 : -1)`. -/
def posRet (closes : List ℚ) (i : ℕ) (p : PosS) : ℚ :=
  let c := closes.getD i 0
  let e := closes.getD p.entryIdx 0
  (c - e) / e * p.side.dir

/-- The sequential exit checks of the breakout strategies, as their
disjunction: max-hold, then take-profit, then stop-loss, where the
TP/SL guards test the value for JavaScript truthiness (`≠ 0` over ℚ). -/
def exitCond (mhd tp sl held ret : ℚ) : Prop :=
  mhd ≤ held ∨ (tp ≠ 0 ∧ tp ≤ ret) ∨ (sl ≠ 0 ∧ ret ≤ -sl)

instance (mhd tp sl held ret : ℚ) : Decidable (exitCond mhd tp sl held ret) :=
  inferInstanceAs (Decidable (_ ∨ _))

/-- Exit rule of `runBreakoutPct` / `runBreakoutAtr` at bar `i` (lines
364-370 and 428-434 of the worker source, which are identical). -/
def exitRuleBreakout (closes : List ℚ) (mhd tp sl : ℚ) (i : ℕ) (p : PosS) : Prop :=
  exitCond mhd tp sl ((i : ℚ) - (p.entryIdx : ℚ)) (posRet closes i p)

instance (closes : List ℚ) (mhd tp sl : ℚ) (i : ℕ) (p : PosS) :
    Decidable (exitRuleBreakout closes mhd tp sl i p) :=
  inferInstanceAs (Decidable (exitCond _ _ _ _ _))

/-- Exit rule of `runMeanReversion` at bar `i`: mean-touch first, then the
max-hold / TP / SL checks, each guarded by truthiness of its parameter. -/
def exitRuleMR (closes : List ℚ) (lb : ℕ) (mhd tp sl : ℚ) (i : ℕ) (p : PosS) : Prop :=
  (p.side = .long ∧ sma closes lb i ≤ closes.getD i 0) ∨
  (p.side = .short ∧ closes.getD i 0 ≤ sma closes lb i) ∨
  (mhd ≠ 0 ∧ mhd ≤ (i : ℚ) - (p.entryIdx : ℚ)) ∨
  (tp ≠ 0 ∧ tp ≤ posRet closes i p) ∨
  (sl ≠ 0 ∧ posRet closes i p ≤ -sl)

instance (closes : List ℚ) (lb : ℕ) (mhd tp sl : ℚ) (i : ℕ) (p : PosS) :
    Decidable (exitRuleMR closes lb mhd tp sl i p) :=
  inferInstanceAs (Decidable (_ ∨ _))

/-- Entry rule of `runBreakoutPct` at bar `i`: long on
`c > up * (1 + threshold_pct)`, short on `c < dn * (1 - threshold_pct)`,
long taking precedence; a `none` rolling extreme models the non-finite
(`isFinite`-rejected) case. -/
def entryRulePct (closes : List ℚ) (lb : ℕ) (t : ℚ) (allowL allowS : Bool) (i : ℕ) :
    Option Side :=
  let c := closes.getD i 0
  let goL : Bool := allowL &&
    (match rmax closes lb i with
     | some u => decide (u * (1 + t) < c)
     | none => false)
  let goS : Bool := allowS &&
    (match rmin closes lb i with
     | some d => decide (c < d * (1 - t))
     | none => false)
  if goL then some .long else if goS then some .short else none

/-- Entry rule of `runBreakoutAtr` at bar `i`: as the percent variant but
with margin `atr_k * ATR[i]`, and no signal at all while `ATR[i]` is `NaN`. -/
def entryRuleAtr (closes : List ℚ) (atr : List (Option ℚ)) (lb : ℕ) (k : ℚ)
    (allowL allowS : Bool) (i : ℕ) : Option Side :=
  let c := closes.getD i 0
  match atr.getD i none with
  | none => none
  | some a =>
    let goL : Bool := allowL &&
      (match rmax closes lb i with
       | some u => decide (u + k * a < c)
       | none => false)
    let goS : Bool := allowS &&
      (match rmin closes lb i with
       | some d => decide (c < d - k * a)
       | none => false)
    if goL then some .long else if goS then some .short else none

/-- Entry rule of `runMeanReversion` at bar `i`: long on
`c ≤ m * (1 - drop_pct)`, short on `c ≥ m * (1 + drop_pct)`.  The
`isFinite(m)` guard of the source is vacuous (`sma` is total here). -/
def entryRuleMR (closes : List ℚ) (lb : ℕ) (drop : ℚ) (allowL allowS : Bool) (i : ℕ) :
    Option Side :=
  let c := closes.getD i 0
  let m := sma closes lb i
  let goL : Bool := allowL && decide (c ≤ m * (1 - drop))
  let goS : Bool := allowS && decide (m * (1 + drop) ≤ c)
  if goL then some .long else if goS then some .short else none

/-- One iteration of the shared position-lifecycle loop: process the exit
of an open position (emitting a trade and recording `lastExit`), then, if
entry is permitted (`canEnter`), query the entry rule and open a position
at the current bar. -/
def lifecycleStep (allowImm : Bool) (cooldown : ℚ)
    (er : ℕ → PosS → Prop) [∀ i p, Decidable (er i p)]
    (nr : ℕ → Option Side) (s : LoopSt) (i : ℕ) : LoopSt :=
  let s1 : LoopSt :=
    match s.pos with
    | some p =>
      if er i p then ⟨s.trades ++ [⟨p.side, p.entryIdx, i⟩], none, (i : ℤ)⟩ else s
    | none => s
  if s1.pos = none ∧ (allowImm = true ∨ s1.lastExit < (i : ℤ)) ∧
      (cooldown = 0 ∨ cooldown < (i : ℚ) - ((s1.lastExit : ℤ) : ℚ)) then
    match nr i with
    | some sd => ⟨s1.trades, some ⟨sd, i⟩, s1.lastExit⟩
    | none => s1
  else s1

/-- The strategy loop `for (let i = lo; i < n; i++)` over the lifecycle
step, returning the emitted trades. -/
def runLifecycle (allowImm : Bool) (cooldown : ℚ)
    (er : ℕ → PosS → Prop) [∀ i p, Decidable (er i p)]
    (nr : ℕ → Option Side) (lo n : ℕ) : List TradeI :=
  ((List.range' lo (n - lo)).foldl (lifecycleStep allowImm cooldown er nr)
    ⟨[], none, -9999⟩).trades

/- --------------------------- Strategies ------------------------------ -/

/-- Model of `runBreakoutPct`, tracking trades by bar index. -/
def runBreakoutPctAux (data : List OHLC) (raw : RawParams) : List TradeI :=
  let closes := data.map (·.close)
  runLifecycle (effAllowImm raw) (effCooldown raw)
    (exitRuleBreakout closes (effMaxHold raw) (effTakeProfit raw) (effStopLoss raw))
    (entryRulePct closes (breakoutPctLookback raw) (breakoutPctThreshold closes raw)
      (effAllowLong raw) (effAllowShort raw))
    1 data.length

/-- Default bar used for (never occurring) out-of-range indexing. -/
def dfltBar : OHLC := ⟨"", 0, 0, 0, 0⟩

/-- The `Trade` record that the strategy loops push on exit, as a function
of the entry/exit bar indices (the source's `pos.entryPx` equals the entry
bar's close). -/
def renderTrade (data : List OHLC) (t : TradeI) : Trade :=
  let e := (data.getD t.entryIdx dfltBar).close
  let c := (data.getD t.exitIdx dfltBar).close
  { entry_date := (data.getD t.entryIdx dfltBar).date
    entry_price := clampNum e
    exit_date := (data.getD t.exitIdx dfltBar).date
    exit_price := clampNum c
    pnl := clampNum ((c - e) * t.side.dir)
    return_pct := round6 ((c - e) / e * t.side.dir) }

/-- Model of `runBreakoutPct(data, raw)`. -/
def runBreakoutPct (data : List OHLC) (raw : RawParams) : List Trade :=
  (runBreakoutPctAux data raw).map (renderTrade data)

/-- Model of `runBreakoutAtr`, tracking trades by bar index. -/
def runBreakoutAtrAux (data : List OHLC) (raw : RawParams) : List TradeI :=
  let closes := data.map (·.close)
  runLifecycle (effAllowImm raw) (effCooldown raw)
    (exitRuleBreakout closes (effMaxHold raw) (effTakeProfit raw) (effStopLoss raw))
    (entryRuleAtr closes (atrWilder data (atrLookback raw)) (atrLookback raw)
      (atrKEff data raw) (effAllowLong raw) (effAllowShort raw))
    1 data.length

/-- Model of `runBreakoutAtr(data, raw)`. -/
def runBreakoutAtr (data : List OHLC) (raw : RawParams) : List Trade :=
  (runBreakoutAtrAux data raw).map (renderTrade data)

/-- Model of `runMeanReversion`, tracking trades by bar index (its loop starts at
`i = lookback`). -/
def runMeanReversionAux (data : List OHLC) (raw : RawParams) : List TradeI :=
  let closes := data.map (·.close)
  runLifecycle (effAllowImm raw) (effCooldown raw)
    (exitRuleMR closes (mrLookback raw) (mrMaxHold raw) (mrTakeProfit raw) (mrStopLoss raw))
    (entryRuleMR closes (mrLookback raw) (mrDrop closes raw)
      (effAllowLong raw) (effAllowShort raw))
    (mrLookback raw) data.length

/-- Model of `runMeanReversion(data, raw)`. -/
def runMeanReversion (data : List OHLC) (raw : RawParams) : List Trade :=
  (runMeanReversionAux data raw).map (renderTrade data)

/-- Model of `runLegacyAbsolute`, tracking trades by (entry, exit) bar index: scan
`i = 1 .. data.length - holdDays - 1` for a cross from below
(`closes[i-1] < threshold && closes[i] >= threshold`); each cross yields a
trade entering at `i` and exiting at `i + holdDays`, with no position
state. -/
def runLegacyAbsoluteAux (data : List OHLC) (threshold : ℚ) (holdDays : ℕ) :
    List (ℕ × ℕ) :=
  let closes := data.map (·.close)
  (List.range' 1 (data.length - holdDays - 1)).filterMap (fun i =>
    if closes.getD (i - 1) 0 < threshold ∧ threshold ≤ closes.getD i 0 then
      some (i, i + holdDays)
    else none)

/-- The `Trade` record pushed by `runLegacyAbsolute` (always long). -/
def renderLegacy (data : List OHLC) (t : ℕ × ℕ) : Trade :=
  let e := (data.getD t.1 dfltBar).close
  let c := (data.getD t.2 dfltBar).close
  { entry_date := (data.getD t.1 dfltBar).date
    entry_price := clampNum e
    exit_date := (data.getD t.2 dfltBar).date
    exit_price := clampNum c
    pnl := clampNum (c - e)
    return_pct := round6 ((c - e) / e) }

/-- Model of `runLegacyAbsolute(data, threshold, holdDays)`. -/
def runLegacyAbsolute (data : List OHLC) (threshold : ℚ) (holdDays : ℕ) : List Trade :=
  (runLegacyAbsoluteAux data threshold holdDays).map (renderLegacy data)

/- ----------------------- Metrics and handler ------------------------- -/

/-- One step of the equity-curve loop in `buildMetrics`:
`equity = +(equity * (1 + t.return_pct)).toFixed(2)` appended at
`t.exit_date`. -/
def equityStep (acc : List EquityPoint × ℚ) (t : Trade) : List EquityPoint × ℚ :=
  let e := clampNum (acc.2 * (1 + t.return_pct))
  (acc.1 ++ [⟨t.exit_date, e⟩], e)

/-- One step of the drawdown walk in `buildMetrics`: state is
`(peak, mdd)`. -/
def ddStep (acc : ℚ × ℚ) (p : EquityPoint) : ℚ × ℚ :=
  let peak := if acc.1 < p.equity then p.equity else acc.1
  let dd := if peak ≠ 0 then (p.equity - peak) / peak else 0
  (peak, if dd < acc.2 then dd else acc.2)

/-- Model of `buildMetrics(trades, data, initialEquity)`.  `parse` models
`(d : string) => new Date(d).getTime()` and `rpow` models `Math.pow`;
both touch only `annualized_return`. -/
def buildMetrics (parse : String → ℚ) (rpow : ℚ → ℚ → ℚ)
    (trades : List Trade) (data : List OHLC) (initialEquity : ℚ := 1000) :
    List EquityPoint × Metrics :=
  let start : List EquityPoint × ℚ :=
    ([⟨(data.head?.map (·.date)).getD "", clampNum initialEquity⟩], initialEquity)
  let fin := trades.foldl equityStep start
  let equity_curve := fin.1
  let equity := fin.2
  let total_pnl := clampNum (equity - initialEquity)
  let wins := (trades.filter (fun t => 0 < t.pnl)).length
  let win_rate : ℚ := if trades.length = 0 then 0 else (wins : ℚ) / trades.length
  let annualized_return : ℚ :=
    if 1 < data.length then
      let days := (parse ((data.getLast?.map (·.date)).getD "") -
        parse ((data.head?.map (·.date)).getD "")) / 86400000
      let years := days / 365
      if 0 < years then rpow (equity / initialEquity) (1 / years) - 1 else 0
    else 0
  let peak0 := (equity_curve.head?.map (·.equity)).getD 0
  let mdd := (equity_curve.foldl ddStep (peak0, 0)).2
  (equity_curve,
   { total_pnl := clampNum total_pnl
     win_rate := round6 win_rate
     annualized_return := round6 annualized_return
     max_drawdown := round6 |mdd|
     final_equity := clampNum equity
     initial_equity := clampNum initialEquity })

/-- The strategy tag read from `params.strategy`. -/
inductive StrategyName where
  | legacy_absolute
  | breakout_pct
  | breakout_atr
  | mean_reversion
deriving DecidableEq, Repr

/-- The strategy-relevant fields of a `/backtest` request body.
`strategy = none` models both an absent and an unrecognised tag (the
source falls back to legacy for both); `threshold = none` models a
non-numeric legacy threshold, i.e. `NaN`. -/
structure BacktestRequest where
  threshold : Option ℚ := none
  hold_days : Option ℕ := none
  strategy : Option StrategyName := none
  params : RawParams := {}

/-- The computational content of a `/backtest` response (the echo fields
`symbol`, `start`, `end`, `params`, `note`, `source_used` are HTTP
plumbing and not modelled). -/
structure BacktestResult where
  metrics : Metrics
  trades : List Trade
  equity_curve : List EquityPoint
  price_series : List (String × ℚ)
deriving DecidableEq, Repr

/-- The pure core of `handleBacktest`: its behaviour once the price data
has been fetched.  With `NaN` as threshold the legacy cross condition
`closes[i-1] < NaN && NaN <= closes[i]` is identically false, hence the
empty trade list in the `threshold = none` legacy case. -/
def handleBacktestCore (parse : String → ℚ) (rpow : ℚ → ℚ → ℚ)
    (req : BacktestRequest) (data : List OHLC) : BacktestResult :=
  if data.length = 0 then
    { metrics := ⟨0, 0, 0, 0, 1000, 1000⟩
      trades := []
      equity_curve := [⟨"", 1000⟩]
      price_series := [] }
  else
    let hold_days := max 1 (req.hold_days.getD 4)
    let trades :=
      match req.strategy.getD .legacy_absolute with
      | .legacy_absolute =>
        match req.threshold with
        | some t => runLegacyAbsolute data t hold_days
        | none => []
      | .breakout_pct => runBreakoutPct data req.params
      | .breakout_atr => runBreakoutAtr data req.params
      | .mean_reversion => runMeanReversion data req.params
    let bm := buildMetrics parse rpow trades data 1000
    { metrics := bm.2
      trades := trades
      equity_curve := bm.1
      price_series := data.map (fun d => (d.date, clampNum d.close)) }

/- ------------------- Concrete series and parameters ------------------ -/

/-- A bar whose four prices all equal `c`. -/
def mkBar (d : String) (c : ℚ) : OHLC := ⟨d, c, c, c, c⟩

/-- Close series `[10, 9, 11, 12, 8]` of the legacy scenario. -/
def demoLegacy : List OHLC :=
  [mkBar "2024-01-01" 10, mkBar "2024-01-02" 9, mkBar "2024-01-03" 11,
   mkBar "2024-01-04" 12, mkBar "2024-01-05" 8]

/-- Close series `[9, 11, 9, 11, 10, 10, 10]`: it crosses the threshold 10
from below at bars 1 and 3. -/
def demoOverlap : List OHLC :=
  [mkBar "2024-02-01" 9, mkBar "2024-02-02" 11, mkBar "2024-02-03" 9,
   mkBar "2024-02-04" 11, mkBar "2024-02-05" 10, mkBar "2024-02-06" 10,
   mkBar "2024-02-07" 10]

/-- Close series `[100, 101, 102, 110, 105]` of the breakout scenario. -/
def demoBkt : List OHLC :=
  [mkBar "2024-03-01" 100, mkBar "2024-03-02" 101, mkBar "2024-03-03" 102,
   mkBar "2024-03-04" 110, mkBar "2024-03-05" 105]

/-- Parameters of the breakout scenario: `lookback = 2`,
`thresholdPct = 0.05`, long only, `maxHoldDays = 1`. -/
def rawBkt : RawParams :=
  { lookback := some 2, threshold_pct := some 0.05, allow_long := some true,
    allow_short := some false, max_hold_days := some 1 }

/-- Three flat-range bars with closes `[1, 2, 2]` (so the true ranges are
`[0, 1, 0]`). -/
def demoAtrBars : List OHLC :=
  [mkBar "2024-04-01" 1, mkBar "2024-04-02" 2, mkBar "2024-04-03" 2]

/-- A series whose closes are not multiples of `0.01`:
`[0.9, 0.9, 0.9, 0.9, 0.9, 1.004, 1.006]`. -/
def demoRound : List OHLC :=
  [mkBar "2024-05-01" 0.9, mkBar "2024-05-02" 0.9, mkBar "2024-05-03" 0.9,
   mkBar "2024-05-04" 0.9, mkBar "2024-05-05" 0.9, mkBar "2024-05-06" 1.004,
   mkBar "2024-05-07" 1.006]

/-- Breakout-percent parameters with a tiny trigger and a one-bar hold. -/
def rawRound : RawParams := { threshold_pct := some 0.001, max_hold_days := some 1 }

/- --------------------- Specification-side notions -------------------- -/

/-- Trades open strictly before they close, and each trade closes no later
than the next one opens (so two positions never coexist; an entry may
reuse the exit bar when immediate re-entry is allowed). -/
def TradesOrdered (l : List TradeI) : Prop :=
  (∀ t ∈ l, t.entryIdx < t.exitIdx) ∧ l.Pairwise (fun a b => a.exitIdx ≤ b.entryIdx)

/-- Invariant of the lifecycle fold, before processing bar `i`: emitted
trades are ordered and closed before `i`, and an open position was entered
before `i`, no earlier than the last emitted exit. -/
def LoopInv (i : ℕ) (s : LoopSt) : Prop :=
  (∀ t ∈ s.trades, t.entryIdx < t.exitIdx ∧ t.exitIdx < i) ∧
  s.trades.Pairwise (fun a b => a.exitIdx ≤ b.entryIdx) ∧
  (∀ p, s.pos = some p → p.entryIdx < i ∧ ∀ t ∈ s.trades, t.exitIdx ≤ p.entryIdx)

/-- A rational that is exactly representable with two decimal digits
(prices quoted in cents). -/
def Dec2 (q : ℚ) : Prop := ∃ k : ℤ, q = k / 100

/-- The spec's per-trade equity recursion: one point per trade, in order,
at the trade's exit date, compounding with two-decimal rounding. -/
def specEquitySteps (eq : ℚ) : List Trade → List EquityPoint
  | [] => []
  | t :: ts =>
    let e := clampNum (eq * (1 + t.return_pct))
    ⟨t.exit_date, e⟩ :: specEquitySteps e ts

/-- The spec's wording of the absolute daily returns:
`|close[i] - close[i-1]| / close[i-1]`. -/
def specAbsDailyReturns (closes : List ℚ) : List ℚ :=
  List.zipWith (fun prev cur => |cur - prev| / prev) closes closes.tail

/-- The spec's wording of the adaptive trigger:
`clamp(0.6 × meanAbsoluteDailyReturn, 0.001, 0.02)`. -/
def specAdaptiveThresholdPct (closes : List ℚ) : ℚ :=
  max 0.001 (min 0.02 (0.6 * mean (specAbsDailyReturns closes)))

/- ------------------------------ Theorems ----------------------------- -/

/-- Processing one bar preserves the lifecycle invariant, whatever the
exit and entry rules decide. -/
theorem lifecycleStep_inv (allowImm : Bool) (cooldown : ℚ)
    (er : ℕ → PosS → Prop) [∀ i p, Decidable (er i p)]
    (nr : ℕ → Option Side) (i : ℕ) (s : LoopSt) (h : LoopInv i s) :
    LoopInv (i + 1) (lifecycleStep allowImm cooldown er nr s i) := by
  obtain ⟨hT, hP, hpos⟩ := h
  have hmono : LoopInv (i + 1) s :=
    ⟨fun t ht => ⟨(hT t ht).1, Nat.lt_succ_of_lt (hT t ht).2⟩, hP,
     fun p hp => ⟨Nat.lt_succ_of_lt (hpos p hp).1, (hpos p hp).2⟩⟩
  unfold lifecycleStep
  rcases hps : s.pos with _ | p
  · simp only [hps]
    split_ifs with hc
    · rcases hnr : nr i with _ | sd
      · exact hmono
      · refine ⟨fun t ht => ⟨(hT t ht).1, Nat.lt_succ_of_lt (hT t ht).2⟩, hP, ?_⟩
        rintro q hq
        simp only [Option.some.injEq] at hq
        subst hq
        exact ⟨Nat.lt_succ_self i, fun t ht => Nat.le_of_lt (hT t ht).2⟩
    · exact hmono
  · simp only [hps]
    by_cases hex : er i p
    · simp only [if_pos hex]
      have hTnew : ∀ t ∈ s.trades ++ [(⟨p.side, p.entryIdx, i⟩ : TradeI)],
          t.entryIdx < t.exitIdx ∧ t.exitIdx < i + 1 := by
        intro t ht
        rcases List.mem_append.1 ht with h1 | h1
        · exact ⟨(hT t h1).1, Nat.lt_succ_of_lt (hT t h1).2⟩
        · simp only [List.mem_singleton] at h1
          subst h1
          exact ⟨(hpos p hps).1, Nat.lt_succ_self i⟩
      have hPnew : (s.trades ++ [(⟨p.side, p.entryIdx, i⟩ : TradeI)]).Pairwise
          (fun a b => a.exitIdx ≤ b.entryIdx) := by
        refine List.pairwise_append.2 ⟨hP, List.pairwise_singleton _ _, ?_⟩
        intro a ha b hb
        simp only [List.mem_singleton] at hb
        subst hb
        exact (hpos p hps).2 a ha
      split_ifs with hc
      · rcases hnr : nr i with _ | sd
        · exact ⟨hTnew, hPnew, by simp⟩
        · refine ⟨hTnew, hPnew, ?_⟩
          rintro q hq
          simp only [Option.some.injEq] at hq
          subst hq
          refine ⟨Nat.lt_succ_self i, fun t ht => ?_⟩
          exact Nat.le_of_lt_succ (hTnew t ht).2
      · exact ⟨hTnew, hPnew, by simp⟩
    · simp only [if_neg hex]
      split_ifs with hc
      · simp [hps] at hc
      · exact hmono

/-- The lifecycle invariant propagates along the strategy loop. -/
theorem foldl_lifecycle_inv (allowImm : Bool) (cooldown : ℚ)
    (er : ℕ → PosS → Prop) [∀ i p, Decidable (er i p)]
    (nr : ℕ → Option Side) :
    ∀ (k lo : ℕ) (s : LoopSt), LoopInv lo s →
      LoopInv (lo + k)
        ((List.range' lo k).foldl (lifecycleStep allowImm cooldown er nr) s) := by
  intro k
  induction k with
  | zero => intro lo s h; simpa using h
  | succ m ih =>
    intro lo s h
    have hstep := lifecycleStep_inv allowImm cooldown er nr lo s h
    have : List.range' lo (m + 1) = lo :: List.range' (lo + 1) m := rfl
    rw [this]
    simpa [Nat.add_comm, Nat.add_assoc, Nat.add_left_comm] using
      ih (lo + 1) _ hstep

/-- Whatever the entry and exit rules, the lifecycle loop emits an ordered
trade list. -/
theorem tradesOrdered_runLifecycle (allowImm : Bool) (cooldown : ℚ)
    (er : ℕ → PosS → Prop) [∀ i p, Decidable (er i p)]
    (nr : ℕ → Option Side) (lo n : ℕ) :
    TradesOrdered (runLifecycle allowImm cooldown er nr lo n) := by
  have h0 : LoopInv lo ⟨[], none, -9999⟩ := by
    refine ⟨by simp, List.Pairwise.nil, ?_⟩
    intro p hp
    simp at hp
  have h := foldl_lifecycle_inv allowImm cooldown er nr (n - lo) lo _ h0
  exact ⟨fun t ht => (h.1 t ht).1, h.2.1⟩

/-- Breakout-percent emits an ordered trade list. -/
theorem tradesOrdered_pct (data : List OHLC) (raw : RawParams) :
    TradesOrdered (runBreakoutPctAux data raw) :=
  tradesOrdered_runLifecycle _ _ _ _ _ _

/-- Breakout-ATR emits an ordered trade list. -/
theorem tradesOrdered_atr (data : List OHLC) (raw : RawParams) :
    TradesOrdered (runBreakoutAtrAux data raw) :=
  tradesOrdered_runLifecycle _ _ _ _ _ _

/-- Mean-reversion emits an ordered trade list. -/
theorem tradesOrdered_mr (data : List OHLC) (raw : RawParams) :
    TradesOrdered (runMeanReversionAux data raw) :=
  tradesOrdered_runLifecycle _ _ _ _ _ _

/-- C1, counterexample: the Legacy Absolute strategy does not enforce the
single-position invariant.  On closes `[9, 11, 9, 11, 10, 10, 10]` with
threshold `10` and `holdDays = 3` it emits trades with bar-index ranges
`[1, 4]` and `[3, 6]`, which overlap (bars 3 and 4 lie strictly inside
both), so two positions are open at bar 3. -/
theorem claim_c1_counterexample :
    ¬ ((runLegacyAbsoluteAux demoOverlap 10 3).Pairwise
        (fun a b => a.2 ≤ b.1 ∨ b.2 ≤ a.1)) := by
  have h : runLegacyAbsoluteAux demoOverlap 10 3 = [(1, 4), (3, 6)] := by
    norm_num [runLegacyAbsoluteAux, demoOverlap, mkBar, List.range', List.getD,
      List.getElem?_cons_succ, List.getElem?_cons_zero, List.filterMap_cons]
  rw [h]
  decide

/-- C1 (amended): the three stateful strategies (Breakout-Percent,
Breakout-ATR, Mean-Reversion) emit, for every price series and parameter
choice, a chronologically ordered trade list in which each trade's entry
bar index is strictly below its exit bar index and each trade's exit bar
index is at most the next trade's entry bar index — so at most one
position is open at any time, and two trades' bar-index ranges can share
at most a boundary bar.  The Legacy Absolute strategy does not enforce
this (see the counterexample). -/
theorem claim_c1_stateful_single_position :
    ∀ (data : List OHLC) (rawP rawA rawM : RawParams),
      TradesOrdered (runBreakoutPctAux data rawP) ∧
      TradesOrdered (runBreakoutAtrAux data rawA) ∧
      TradesOrdered (runMeanReversionAux data rawM) :=
  fun data rawP rawA rawM =>
    ⟨tradesOrdered_pct data rawP, tradesOrdered_atr data rawA,
     tradesOrdered_mr data rawM⟩

/-- C1, witness: the amended claim evaluated on the breakout scenario
series. -/
theorem claim_c1_stateful_single_position_witness :
    TradesOrdered (runBreakoutPctAux demoBkt rawBkt) ∧
    TradesOrdered (runBreakoutAtrAux demoBkt rawBkt) ∧
    TradesOrdered (runMeanReversionAux demoBkt rawBkt) :=
  claim_c1_stateful_single_position demoBkt rawBkt rawBkt rawBkt

/-- C3: Legacy Absolute on closes `[10, 9, 11, 12, 8]` with threshold `10`
and `holdDays = 1` yields exactly one trade: entry at bar index 2 (close
11, because `9 < 10 ≤ 11`), exit at bar index 3 (close 12), pnl `+1`, and
recorded return fraction `0.090909`, i.e. `1/11` rounded to six decimals
(≈ `+0.0909`). -/
theorem claim_c3_legacy_scenario :
    runLegacyAbsoluteAux demoLegacy 10 1 = [(2, 3)] ∧
    runLegacyAbsolute demoLegacy 10 1 =
      [⟨"2024-01-03", 11, "2024-01-04", 12, 1, 90909 / 1000000⟩] ∧
    round6 (1 / 11) = 90909 / 1000000 := by
  refine ⟨?_, ?_, ?_⟩
  · norm_num [runLegacyAbsoluteAux, demoLegacy, mkBar, List.range', List.getD,
      List.getElem?_cons_succ, List.getElem?_cons_zero, List.filterMap_cons]
  · norm_num [runLegacyAbsolute, runLegacyAbsoluteAux, renderLegacy, demoLegacy,
      mkBar, List.range', clampNum, round6, roundDec, round_eq, List.getD,
      List.getElem?_cons_succ, List.getElem?_cons_zero, List.filterMap_cons]
  · rw [round6, roundDec, round_eq]
    norm_num

/-- C4: Breakout-Percent on closes `[100, 101, 102, 110, 105]` with
`lookback = 2`, `thresholdPct = 0.05`, long only and `maxHoldDays = 1`
yields exactly one trade: a long entered at bar index 3 (price 110) and
closed at bar index 4 (price 105) by the max-hold rule, with
`pnl = 105 - 110 = -5` (and recorded return `-5/110` rounded to six
decimals). -/
theorem claim_c4_breakout_scenario :
    runBreakoutPctAux demoBkt rawBkt = [⟨.long, 3, 4⟩] ∧
    runBreakoutPct demoBkt rawBkt =
      [⟨"2024-03-04", 110, "2024-03-05", 105, -5, -45455 / 1000000⟩] := by
  constructor
  · norm_num [runBreakoutPctAux, runLifecycle, lifecycleStep, demoBkt, mkBar, rawBkt,
      List.range', entryRulePct, exitRuleBreakout, exitCond, posRet, rmax, rmin,
      breakoutPctLookback, breakoutPctThreshold, effAllowLong, effAllowShort,
      effMaxHold, effTakeProfit, effStopLoss, effCooldown, effAllowImm, Side.dir,
      List.getD, List.getElem?_cons_succ, List.getElem?_cons_zero, List.max?,
      List.min?, List.foldl_cons, List.foldl_nil]
  · norm_num [runBreakoutPct, runBreakoutPctAux, runLifecycle, lifecycleStep,
      demoBkt, mkBar, rawBkt, List.range', entryRulePct, exitRuleBreakout, exitCond,
      posRet, rmax, rmin, breakoutPctLookback, breakoutPctThreshold, effAllowLong,
      effAllowShort, effMaxHold, effTakeProfit, effStopLoss, effCooldown,
      effAllowImm, Side.dir, renderTrade, clampNum, round6, roundDec, round_eq,
      List.getD, List.getElem?_cons_succ, List.getElem?_cons_zero, List.max?,
      List.min?, List.foldl_cons, List.foldl_nil]

/-- C6: on an empty price series the backtest handler degrades gracefully:
no trades, the single equity point `("", 1000)`, and metrics that are all
zero except `final_equity = initial_equity = 1000` — for every request and
every model of the external date/power primitives. -/
theorem claim_c6_empty_series :
    ∀ (parse : String → ℚ) (rpow : ℚ → ℚ → ℚ) (req : BacktestRequest),
      handleBacktestCore parse rpow req [] =
        { metrics := ⟨0, 0, 0, 0, 1000, 1000⟩, trades := [],
          equity_curve := [⟨"", 1000⟩], price_series := [] } :=
  fun _ _ _ => rfl

theorem sum_take_succ (l : List ℚ) (i : ℕ) (h : i < l.length) :
    (l.take (i + 1)).sum = (l.take i).sum + l[i] := by
  rw [List.take_succ, List.getElem?_eq_getElem h, Option.toList_some,
    List.sum_append, List.sum_cons, List.sum_nil]
  ring

theorem drop_cons_len {α : Type} (l : List α) (i : ℕ) (tri : α) (r : List α)
    (hdrop : tri :: r = l.drop i) : i < l.length := by
  rcases Nat.lt_or_ge i l.length with h | h
  · exact h
  · rw [List.drop_eq_nil_of_le h] at hdrop
    cases hdrop

theorem drop_cons_fields {α : Type} (l : List α) (i : ℕ) (tri : α) (r : List α)
    (hdrop : tri :: r = l.drop i) :
    i < l.length ∧ ∀ h : i < l.length, tri = l[i] ∧ r = l.drop (i + 1) := by
  have hi := drop_cons_len l i tri r hdrop
  refine ⟨hi, fun h => ?_⟩
  rw [List.drop_eq_getElem_cons h] at hdrop
  simp only [List.cons.injEq] at hdrop
  exact hdrop

theorem sum_drop_one_take (l : List ℚ) (p : ℕ) (h : l ≠ []) :
    ((l.drop 1).take p).sum = (l.take (p + 1)).sum - l.getD 0 0 := by
  cases l with
  | nil => exact absurd rfl h
  | cons x xs => simp [List.take_succ_cons]

theorem atrGo_lt_shape (p : ℕ) (trAll : List ℚ) (i : ℕ) (s : ℚ) (prev : Option ℚ)
    (tri : ℚ) (r : List ℚ) (hip : i < p) :
    atrGo p trAll i s prev (tri :: r) =
      (if i + 1 = p then some ((s + tri) / p) else none) ::
        atrGo p trAll (i + 1) (s + tri)
          (if i + 1 = p then some ((s + tri) / p) else none) r := by
  simp [atrGo, hip]

theorem atrGo_eq_shape (p : ℕ) (trAll : List ℚ) (i : ℕ) (s : ℚ) (prev : Option ℚ)
    (tri : ℚ) (r : List ℚ) (_h1 : ¬ i < p) (h2 : i = p) :
    atrGo p trAll i s prev (tri :: r) =
      some ((s + tri - trAll.getD (i - p) 0) / p) ::
        atrGo p trAll (i + 1) (s + tri - trAll.getD (i - p) 0)
          (some ((s + tri - trAll.getD (i - p) 0) / p)) r := by
  simp [atrGo, h2]

theorem atrGo_gt_shape (p : ℕ) (trAll : List ℚ) (i : ℕ) (s : ℚ) (prev : Option ℚ)
    (tri : ℚ) (r : List ℚ) (h1 : ¬ i < p) (h2 : ¬ i = p) :
    atrGo p trAll i s prev (tri :: r) =
      (prev.map (fun pa => (pa * ((p : ℚ) - 1) + tri) / p)) ::
        atrGo p trAll (i + 1) s
          (prev.map (fun pa => (pa * ((p : ℚ) - 1) + tri) / p)) r := by
  simp [atrGo, h1, h2]

theorem atrGo_cons_shape (p : ℕ) (trAll : List ℚ) (i : ℕ) (s : ℚ) (prev : Option ℚ)
    (tri : ℚ) (r : List ℚ) :
    ∃ (hd : Option ℚ) (s2 : ℚ),
      atrGo p trAll i s prev (tri :: r) = hd :: atrGo p trAll (i + 1) s2 hd r := by
  by_cases h1 : i < p
  · exact ⟨_, _, atrGo_lt_shape p trAll i s prev tri r h1⟩
  · by_cases h2 : i = p
    · exact ⟨_, _, atrGo_eq_shape p trAll i s prev tri r h1 h2⟩
    · exact ⟨_, _, atrGo_gt_shape p trAll i s prev tri r h1 h2⟩

theorem atrGo_getD_lt (p : ℕ) (trAll : List ℚ) :
    ∀ (j i : ℕ) (s : ℚ) (prev : Option ℚ) (rest : List ℚ), i + j + 1 < p →
      (atrGo p trAll i s prev rest).getD j none = none := by
  intro j
  induction j with
  | zero =>
    intro i s prev rest h
    cases rest with
    | nil => simp [atrGo]
    | cons tri r =>
      rw [atrGo_lt_shape p trAll i s prev tri r (by omega)]
      rw [List.getD_cons_zero]
      rw [if_neg (by omega)]
  | succ m ih =>
    intro i s prev rest h
    cases rest with
    | nil => simp [atrGo]
    | cons tri r =>
      rw [atrGo_lt_shape p trAll i s prev tri r (by omega)]
      rw [List.getD_cons_succ]
      exact ih (i + 1) _ _ r (by omega)

theorem atrGo_getD_seed (p : ℕ) (trAll : List ℚ) :
    ∀ (j i : ℕ) (s : ℚ) (prev : Option ℚ) (rest : List ℚ),
      rest = trAll.drop i → s = (trAll.take i).sum → i + j + 1 = p →
      j < rest.length →
      (atrGo p trAll i s prev rest).getD j none = some ((trAll.take p).sum / p) := by
  intro j
  induction j with
  | zero =>
    intro i s prev rest hdrop hsum hp hlen
    cases rest with
    | nil => simp at hlen
    | cons tri r =>
      obtain ⟨hi, hfields⟩ := drop_cons_fields trAll i tri r hdrop
      obtain ⟨htri, _⟩ := hfields hi
      have htake : (trAll.take (i + 1)).sum = (trAll.take i).sum + tri := by
        rw [sum_take_succ trAll i hi, htri]
      rw [atrGo_lt_shape p trAll i s prev tri r (by omega)]
      rw [List.getD_cons_zero, if_pos (by omega)]
      rw [hsum, ← htake]
      rw [show i + 1 = p by omega]
  | succ m ih =>
    intro i s prev rest hdrop hsum hp hlen
    cases rest with
    | nil => simp at hlen
    | cons tri r =>
      obtain ⟨hi, hfields⟩ := drop_cons_fields trAll i tri r hdrop
      obtain ⟨htri, hdrop'⟩ := hfields hi
      have htake : (trAll.take (i + 1)).sum = (trAll.take i).sum + tri := by
        rw [sum_take_succ trAll i hi, htri]
      rw [atrGo_lt_shape p trAll i s prev tri r (by omega)]
      rw [List.getD_cons_succ]
      refine ih (i + 1) _ _ r hdrop' ?_ (by omega) ?_
      · rw [htake, hsum]
      · have := congrArg List.length hdrop
        simp only [List.length_cons] at hlen
        omega

theorem atrGo_getD_roll (p : ℕ) (trAll : List ℚ) :
    ∀ (j i : ℕ) (s : ℚ) (prev : Option ℚ) (rest : List ℚ),
      rest = trAll.drop i → s = (trAll.take i).sum → i + j = p →
      j < rest.length →
      (atrGo p trAll i s prev rest).getD j none =
        some ((((trAll.drop 1).take p).sum) / p) := by
  intro j
  induction j with
  | zero =>
    intro i s prev rest hdrop hsum hp2 hlen
    cases rest with
    | nil => simp at hlen
    | cons tri r =>
      obtain ⟨hi, hfields⟩ := drop_cons_fields trAll i tri r hdrop
      obtain ⟨htri, _⟩ := hfields hi
      have hnn : trAll ≠ [] := by
        intro hnil
        rw [hnil] at hi
        simp at hi
      have hie : i = p := by omega
      have htake : (trAll.take (i + 1)).sum = (trAll.take i).sum + tri := by
        rw [sum_take_succ trAll i hi, htri]
      rw [atrGo_eq_shape p trAll i s prev tri r (by omega) hie]
      rw [List.getD_cons_zero, Option.some.injEq]
      rw [sum_drop_one_take trAll p hnn, hsum]
      rw [show i - p = 0 by omega]
      rw [show (trAll.take (p + 1)).sum = (trAll.take i).sum + tri by
        rw [← htake, hie]]
  | succ m ih =>
    intro i s prev rest hdrop hsum hp2 hlen
    cases rest with
    | nil => simp at hlen
    | cons tri r =>
      obtain ⟨hi, hfields⟩ := drop_cons_fields trAll i tri r hdrop
      obtain ⟨htri, hdrop'⟩ := hfields hi
      have htake : (trAll.take (i + 1)).sum = (trAll.take i).sum + tri := by
        rw [sum_take_succ trAll i hi, htri]
      rw [atrGo_lt_shape p trAll i s prev tri r (by omega)]
      rw [List.getD_cons_succ]
      refine ih (i + 1) _ _ r hdrop' ?_ (by omega) ?_
      · rw [htake, hsum]
      · simp only [List.length_cons] at hlen
        omega

theorem atrGo_getD_rec (p : ℕ) (trAll : List ℚ) :
    ∀ (j i : ℕ) (s : ℚ) (prev : Option ℚ) (rest : List ℚ),
      rest = trAll.drop i → p < i + j → j < rest.length →
      (atrGo p trAll i s prev rest).getD j none =
        (if j = 0 then prev else (atrGo p trAll i s prev rest).getD (j - 1) none).map
          (fun pa => (pa * ((p : ℚ) - 1) + trAll.getD (i + j) 0) / p) := by
  intro j
  induction j with
  | zero =>
    intro i s prev rest hdrop hplt hlen
    cases rest with
    | nil => simp at hlen
    | cons tri r =>
      obtain ⟨hi, hfields⟩ := drop_cons_fields trAll i tri r hdrop
      obtain ⟨htri, _⟩ := hfields hi
      have hgd : trAll.getD (i + 0) 0 = tri := by
        rw [htri]
        simp [List.getD_eq_getElem?_getD, List.getElem?_eq_getElem hi]
      rw [atrGo_gt_shape p trAll i s prev tri r (by omega) (by omega)]
      rw [List.getD_cons_zero, if_pos rfl, hgd]
  | succ m ih =>
    intro i s prev rest hdrop hplt hlen
    cases rest with
    | nil => simp at hlen
    | cons tri r =>
      obtain ⟨hi, hfields⟩ := drop_cons_fields trAll i tri r hdrop
      obtain ⟨htri, hdrop'⟩ := hfields hi
      have hlen' : m < r.length := by
        simp only [List.length_cons] at hlen
        omega
      obtain ⟨hd, s2, hshape⟩ := atrGo_cons_shape p trAll i s prev tri r
      rw [hshape]
      have hrec := ih (i + 1) s2 hd r hdrop' (by omega) hlen'
      rw [show i + 1 + m = i + (m + 1) by omega] at hrec
      cases m with
      | zero => simpa using hrec
      | succ k => simpa using hrec

theorem trListAux_length : ∀ (pc : ℚ) (l : List OHLC),
    (trListAux pc l).length = l.length := by
  intro pc l
  induction l generalizing pc with
  | nil => rfl
  | cons x xs ih => simp [trListAux, ih]

theorem trList_length (b : List OHLC) : (trList b).length = b.length := by
  cases b with
  | nil => rfl
  | cons x xs => simp [trList, trListAux_length]

/-- C2, counterexample: on the bars with closes `[1, 2, 2]` (all four
prices equal, so the true ranges are `[0, 1, 0]`) and `period = 2`, the
code's `atr[2]` is `1/2` — the rolling average of `tr[1..2]` — while the
claimed Wilder recurrence `(atr[1]·(period-1) + tr[2]) / period` would
give `1/4`; so the recurrence does not hold at index `i = period`. -/
theorem claim_c2_counterexample :
    (atrWilder demoAtrBars 2).getD 2 none = some (1 / 2) ∧
    ((atrWilder demoAtrBars 2).getD 1 none).map
        (fun pa => (pa * ((2 : ℚ) - 1) + (trList demoAtrBars).getD 2 0) / 2) =
      some (1 / 4) ∧
    some ((1 : ℚ) / 2) ≠ some ((1 : ℚ) / 4) := by
  refine ⟨?_, ?_, by norm_num⟩
  · norm_num [atrWilder, atrGo, trList, trListAux, trueRange, demoAtrBars, mkBar,
      List.getD, List.getElem?_cons_succ, List.getElem?_cons_zero]
  · norm_num [atrWilder, atrGo, trList, trListAux, trueRange, demoAtrBars, mkBar,
      List.getD, List.getElem?_cons_succ, List.getElem?_cons_zero]

/-- C2 (amended): in `atrWilder(bars, period)` with `period ≥ 1`: the true
range of bar 0 uses that bar's own close as the previous close; entries at
indices strictly below `period - 1` are `NaN`; the entry at index
`period - 1` is the simple average of the first `period` true ranges; the
entry at index `period` is the simple average of `tr[1 .. period]` (a
rolling window, not the Wilder recurrence); and only from index
`period + 1` on does `atr[i] = (atr[i-1]·(period-1) + tr[i]) / period`
hold. -/
theorem claim_c2_atr_wilder (b : List OHLC) (p : ℕ) (hp : 1 ≤ p) :
    (trList b).head? = b.head?.map (fun bar => trueRange bar.close bar) ∧
    (∀ i, i + 1 < p → (atrWilder b p).getD i none = none) ∧
    (p ≤ b.length →
      (atrWilder b p).getD (p - 1) none = some (((trList b).take p).sum / p)) ∧
    (p < b.length →
      (atrWilder b p).getD p none = some ((((trList b).drop 1).take p).sum / p)) ∧
    (∀ i, p < i → i < b.length →
      (atrWilder b p).getD i none =
        ((atrWilder b p).getD (i - 1) none).map
          (fun pa => (pa * ((p : ℚ) - 1) + (trList b).getD i 0) / p)) := by
  refine ⟨?_, ?_, ?_, ?_, ?_⟩
  · cases b with
    | nil => rfl
    | cons x xs => rfl
  · intro i hi
    exact atrGo_getD_lt p (trList b) i 0 0 none (trList b) (by omega)
  · intro hle
    exact atrGo_getD_seed p (trList b) (p - 1) 0 0 none (trList b)
      (List.drop_zero _).symm (by simp) (by omega)
      (by rw [trList_length]; omega)
  · intro hlt
    exact atrGo_getD_roll p (trList b) p 0 0 none (trList b)
      (List.drop_zero _).symm (by simp) (by omega)
      (by rw [trList_length]; omega)
  · intro i hpi hilen
    have h := atrGo_getD_rec p (trList b) i 0 0 none (trList b)
      (List.drop_zero _).symm (by omega)
      (by rw [trList_length]; omega)
    rw [if_neg (by omega)] at h
    simpa [atrWilder] using h

/-- C2, witness: the amended characterisation evaluated on the three-bar
series with true ranges `[0, 1, 0]` and `period = 1` (seed at index 0,
rolling value at index 1, Wilder recurrence at index 2). -/
theorem claim_c2_atr_wilder_witness :
    (trList demoAtrBars).head? =
      demoAtrBars.head?.map (fun bar => trueRange bar.close bar) ∧
    (atrWilder demoAtrBars 1).getD 0 none =
      some (((trList demoAtrBars).take 1).sum / 1) ∧
    (atrWilder demoAtrBars 1).getD 1 none =
      some ((((trList demoAtrBars).drop 1).take 1).sum / 1) ∧
    (atrWilder demoAtrBars 1).getD 2 none =
      ((atrWilder demoAtrBars 1).getD 1 none).map
        (fun pa => (pa * ((1 : ℚ) - 1) + (trList demoAtrBars).getD 2 0) / 1) := by
  obtain ⟨h1, _, h3, h4, h5⟩ := claim_c2_atr_wilder demoAtrBars 1 (by norm_num)
  refine ⟨h1, ?_, ?_, ?_⟩
  · simpa using h3 (by norm_num [demoAtrBars, mkBar])
  · exact h4 (by norm_num [demoAtrBars, mkBar])
  · exact h5 2 (by norm_num) (by norm_num [demoAtrBars, mkBar])

theorem foldl_equitySteps : ∀ (ts : List Trade) (acc : List EquityPoint) (eq : ℚ),
    (ts.foldl equityStep (acc, eq)).1 = acc ++ specEquitySteps eq ts := by
  intro ts
  induction ts with
  | nil =>
    intro acc eq
    simp [specEquitySteps]
  | cons t rest ih =>
    intro acc eq
    rw [List.foldl_cons]
    rw [show equityStep (acc, eq) t =
      (acc ++ [⟨t.exit_date, clampNum (eq * (1 + t.return_pct))⟩],
        clampNum (eq * (1 + t.return_pct))) from rfl]
    rw [ih]
    simp [specEquitySteps]

theorem specEquitySteps_length : ∀ (ts : List Trade) (eq : ℚ),
    (specEquitySteps eq ts).length = ts.length := by
  intro ts
  induction ts with
  | nil => intro eq; rfl
  | cons t rest ih => intro eq; simp [specEquitySteps, ih]

/-- C5: for every trade list and every non-empty price series, the equity
curve built by `buildMetrics` is the point (first bar's date, initial
equity) followed by exactly one point per trade, in trade order, at that
trade's exit date, with equity `round(previous equity × (1 + return), 2)`
(`specEquitySteps`); consequently its length is `trades.length + 1`.  The
initial equity is assumed exactly representable with two decimals, as the
constant 1000 used by all call sites is. -/
theorem claim_c5_equity_curve (parse : String → ℚ) (rpow : ℚ → ℚ → ℚ)
    (trades : List Trade) (data : List OHLC) (initialEquity : ℚ)
    (hdata : data ≠ []) (hinit : clampNum initialEquity = initialEquity) :
    (buildMetrics parse rpow trades data initialEquity).1 =
      ⟨(data.headD dfltBar).date, initialEquity⟩ ::
        specEquitySteps initialEquity trades ∧
    (buildMetrics parse rpow trades data initialEquity).1.length =
      trades.length + 1 := by
  have hdate : (data.head?.map (·.date)).getD "" = (data.headD dfltBar).date := by
    cases data with
    | nil => exact absurd rfl hdata
    | cons x xs => rfl
  have hcurve : (buildMetrics parse rpow trades data initialEquity).1 =
      [(⟨(data.head?.map (·.date)).getD "", clampNum initialEquity⟩ : EquityPoint)] ++
        specEquitySteps initialEquity trades := by
    simp only [buildMetrics]
    exact foldl_equitySteps trades _ initialEquity
  rw [hcurve, hdate, hinit]
  refine ⟨by simp, ?_⟩
  simp [specEquitySteps_length]

/-- C5, witness: the equity curve on the legacy scenario series with one
trade of return fraction `1/10`. -/
theorem claim_c5_equity_curve_witness :
    ((buildMetrics (fun _ => 0) (fun _ _ => 0)
        [⟨"2024-01-03", 11, "2024-01-04", 12, 1, 1 / 10⟩] demoLegacy 1000).1 =
      ⟨(demoLegacy.headD dfltBar).date, 1000⟩ ::
        specEquitySteps 1000 [⟨"2024-01-03", 11, "2024-01-04", 12, 1, 1 / 10⟩]) ∧
    (buildMetrics (fun _ => 0) (fun _ _ => 0)
        [⟨"2024-01-03", 11, "2024-01-04", 12, 1, 1 / 10⟩] demoLegacy 1000).1.length =
      [(⟨"2024-01-03", 11, "2024-01-04", 12, 1, 1 / 10⟩ : Trade)].length + 1 :=
  claim_c5_equity_curve (fun _ => 0) (fun _ _ => 0)
    [⟨"2024-01-03", 11, "2024-01-04", 12, 1, 1 / 10⟩] demoLegacy 1000
    (by simp [demoLegacy]) (by norm_num [clampNum, roundDec, round_eq])

theorem clamp_collapse (m : ℚ) :
    max 0.001 (min 0.02 (0.6 * max 0.001 (min 0.05 m))) =
      max 0.001 (min 0.02 (0.6 * m)) := by
  rcases le_total m 0.001 with h1 | h1
  · rw [min_eq_right (by linarith : m ≤ (0.05 : ℚ)), max_eq_left h1]
    rw [min_eq_right (by norm_num : (0.6 * 0.001 : ℚ) ≤ 0.02)]
    rw [min_eq_right (by linarith : (0.6 * m : ℚ) ≤ 0.02)]
    rw [max_eq_left (by norm_num : (0.6 * 0.001 : ℚ) ≤ 0.001)]
    rw [max_eq_left (by linarith : (0.6 * m : ℚ) ≤ 0.001)]
  · rcases le_total m 0.05 with h2 | h2
    · rw [min_eq_right h2, max_eq_right h1]
    · rw [min_eq_left h2, max_eq_right (by norm_num : (0.001 : ℚ) ≤ 0.05)]
      rw [min_eq_left (by norm_num : (0.02 : ℚ) ≤ 0.6 * 0.05)]
      rw [min_eq_left (by linarith : (0.02 : ℚ) ≤ 0.6 * m)]

theorem absRets_eq_spec : ∀ (closes : List ℚ), (∀ c ∈ closes, 0 < c) →
    absRets closes = specAbsDailyReturns closes := by
  intro closes
  induction closes with
  | nil => intro _; rfl
  | cons x xs ih =>
    intro hpos
    cases xs with
    | nil => rfl
    | cons y ys =>
      have hx : 0 < x := hpos x (by simp)
      have ihy : absRets (y :: ys) = specAbsDailyReturns (y :: ys) :=
        ih (fun c hc => hpos c (List.mem_cons_of_mem x hc))
      simp only [absRets, specAbsDailyReturns, List.tail_cons, List.zipWith_cons_cons]
      have hhead : |(y - x) / x| = |y - x| / x := by rw [abs_div, abs_of_pos hx]
      have htail : List.zipWith (fun prev cur => |(cur - prev) / prev|) (y :: ys) ys =
          List.zipWith (fun prev cur => |cur - prev| / prev) (y :: ys) ys := by
        simpa [absRets, specAbsDailyReturns] using ihy
      rw [hhead, htail]

/-- C8: when `threshold_pct` is not supplied and the closes are positive
(as the data model guarantees), the effective entry-trigger fraction of
Breakout-Percent equals `clamp(0.6 × meanAbsoluteDailyReturn, 0.001, 0.02)`
with the mean taken over the whole series, exactly as the spec words it:
the code's inner volatility clamp to `[0.001, 0.05]` collapses under the
outer clamp.  This single value is the one the entry rule uses on every
bar (`runBreakoutPctAux` passes it to `entryRulePct` once). -/
theorem claim_c8_adaptive_threshold (data : List OHLC) (raw : RawParams)
    (hnone : raw.threshold_pct = none)
    (hpos : ∀ b ∈ data, 0 < b.close) :
    breakoutPctThreshold (data.map (·.close)) raw =
      specAdaptiveThresholdPct (data.map (·.close)) := by
  have hpos2 : ∀ c ∈ data.map (·.close), 0 < c := by
    intro c hc
    obtain ⟨b, hb, hb2⟩ := List.mem_map.1 hc
    rw [← hb2]
    exact hpos b hb
  unfold breakoutPctThreshold specAdaptiveThresholdPct volPct
  rw [hnone]
  rw [absRets_eq_spec (data.map (·.close)) hpos2]
  simp only [Option.getD_none]
  exact clamp_collapse _

/-- C8, witness: the adaptive trigger on the breakout scenario series with
no supplied `threshold_pct`. -/
theorem claim_c8_adaptive_threshold_witness :
    breakoutPctThreshold (demoBkt.map (·.close)) {} =
      specAdaptiveThresholdPct (demoBkt.map (·.close)) :=
  claim_c8_adaptive_threshold demoBkt {} rfl
    (by
      intro b hb
      simp only [demoBkt, mkBar, List.mem_cons, List.not_mem_nil, or_false] at hb
      rcases hb with rfl | rfl | rfl | rfl | rfl <;> norm_num)

/-- Two parameter records whose effective breakout-percent values agree
produce the same Breakout-Percent run. -/
theorem runBreakoutPctAux_congr (data : List OHLC) (r1 r2 : RawParams)
    (h1 : effAllowImm r1 = effAllowImm r2)
    (h2 : effCooldown r1 = effCooldown r2)
    (h3 : effMaxHold r1 = effMaxHold r2)
    (h4 : effTakeProfit r1 = effTakeProfit r2)
    (h5 : effStopLoss r1 = effStopLoss r2)
    (h6 : breakoutPctLookback r1 = breakoutPctLookback r2)
    (h7 : effAllowLong r1 = effAllowLong r2)
    (h8 : effAllowShort r1 = effAllowShort r2)
    (h9 : breakoutPctThreshold (data.map (·.close)) r1 =
      breakoutPctThreshold (data.map (·.close)) r2) :
    runBreakoutPct data r1 = runBreakoutPct data r2 := by
  simp only [runBreakoutPct, runBreakoutPctAux]
  rw [h1, h2, h3, h4, h5, h6, h7, h8, h9]

/-- C9: caller-supplied numeric strategy parameters are clamped before
use, even when explicitly provided: Breakout-Percent clamps
`threshold_pct` to `[0.001, 0.02]` and `lookback` to `[5, 200]`;
Breakout-ATR clamps `lookback` to `[10, 100]`; Mean-Reversion clamps
`drop_pct` to `[0.003, 0.025]` and `lookback` to `[5, 100]`.  In
particular, Breakout-Percent with `threshold_pct = 0.05` emits exactly
the same trades as with `threshold_pct = 0.02`, on every price series. -/
theorem claim_c9_param_clamping :
    (∀ (closes : List ℚ) (raw : RawParams) (v : ℚ),
      breakoutPctThreshold closes { raw with threshold_pct := some v } =
        max 0.001 (min 0.02 v)) ∧
    (∀ (raw : RawParams) (n : ℕ),
      breakoutPctLookback { raw with lookback := some n } = max 5 (min 200 n)) ∧
    (∀ (raw : RawParams) (n : ℕ),
      atrLookback { raw with lookback := some n } = max 10 (min 100 n)) ∧
    (∀ (closes : List ℚ) (raw : RawParams) (v : ℚ),
      mrDrop closes { raw with drop_pct := some v } = max 0.003 (min 0.025 v)) ∧
    (∀ (raw : RawParams) (n : ℕ),
      mrLookback { raw with lookback := some n } = max 5 (min 100 n)) ∧
    (∀ (data : List OHLC) (raw : RawParams),
      runBreakoutPct data { raw with threshold_pct := some 0.05 } =
        runBreakoutPct data { raw with threshold_pct := some 0.02 }) := by
  refine ⟨fun closes raw v => rfl, fun raw n => rfl, fun raw n => rfl,
    fun closes raw v => rfl, fun raw n => rfl, ?_⟩
  intro data raw
  have h : breakoutPctThreshold (data.map (·.close))
        { raw with threshold_pct := some 0.05 } =
      breakoutPctThreshold (data.map (·.close))
        { raw with threshold_pct := some 0.02 } := by
    show max 0.001 (min 0.02 (0.05 : ℚ)) = max 0.001 (min 0.02 (0.02 : ℚ))
    norm_num
  exact runBreakoutPctAux_congr data { raw with threshold_pct := some 0.05 }
    { raw with threshold_pct := some 0.02 } rfl rfl rfl rfl rfl rfl rfl rfl h

/-- C10: when not supplied, both breakout strategies default
`take_profit_pct` to `0.02` and `stop_loss_pct` to `0.01`, so by default
(the TP/SL guards being nonzero) an open position is exited exactly when
the max-hold bound is reached, the direction-adjusted return is `≥ 0.02`,
or it is `≤ -0.01` (the sequential checks amount to this disjunction,
max-hold checked first); Mean-Reversion defaults both to `0`, and a zero
value — defaulted or supplied — disables that check entirely, because the
source guards each check with the JavaScript truthiness of the parameter
(`≠ 0` over ℚ).  With both zero, a Mean-Reversion position exits only on
mean-touch or max-hold (the effective max-hold `max(1, …)` is never 0, so
its truthiness guard never fires). -/
theorem claim_c10_tp_sl_defaults :
    (∀ raw : RawParams, effTakeProfit { raw with take_profit_pct := none } = 0.02) ∧
    (∀ raw : RawParams, effStopLoss { raw with stop_loss_pct := none } = 0.01) ∧
    (∀ raw : RawParams, mrTakeProfit { raw with take_profit_pct := none } = 0) ∧
    (∀ raw : RawParams, mrStopLoss { raw with stop_loss_pct := none } = 0) ∧
    (∀ mhd held ret : ℚ,
      exitCond mhd 0.02 0.01 held ret ↔ mhd ≤ held ∨ 0.02 ≤ ret ∨ ret ≤ -0.01) ∧
    (∀ mhd sl held ret : ℚ,
      exitCond mhd 0 sl held ret ↔ mhd ≤ held ∨ (sl ≠ 0 ∧ ret ≤ -sl)) ∧
    (∀ mhd tp held ret : ℚ,
      exitCond mhd tp 0 held ret ↔ mhd ≤ held ∨ (tp ≠ 0 ∧ tp ≤ ret)) ∧
    (∀ (closes : List ℚ) (lb : ℕ) (raw : RawParams) (i : ℕ) (p : PosS),
      exitRuleMR closes lb (mrMaxHold raw) 0 0 i p ↔
        (p.side = .long ∧ sma closes lb i ≤ closes.getD i 0) ∨
        (p.side = .short ∧ closes.getD i 0 ≤ sma closes lb i) ∨
        mrMaxHold raw ≤ (i : ℚ) - (p.entryIdx : ℚ)) := by
  refine ⟨fun raw => rfl, fun raw => rfl, fun raw => rfl, fun raw => rfl,
    ?_, ?_, ?_, ?_⟩
  · intro mhd held ret
    unfold exitCond
    norm_num
  · intro mhd sl held ret
    unfold exitCond
    norm_num
  · intro mhd tp held ret
    unfold exitCond
    norm_num
  · intro closes lb raw i p
    have hmhd : mrMaxHold raw ≠ 0 := by
      unfold mrMaxHold
      intro hc
      have h1 : (1 : ℚ) ≤ max 1 (raw.max_hold_days.getD 1) := le_max_left _ _
      rw [hc] at h1
      norm_num at h1
    unfold exitRuleMR
    simp [hmhd]

theorem clampNum_dec2 (q : ℚ) (h : Dec2 q) : clampNum q = q := by
  obtain ⟨k, rfl⟩ := h
  unfold clampNum roundDec
  rw [show (k : ℚ) / 100 * 10 ^ 2 = (k : ℚ) by ring]
  rw [round_intCast]
  norm_num

theorem dec2_sub (a b : ℚ) (ha : Dec2 a) (hb : Dec2 b) : Dec2 (a - b) := by
  obtain ⟨ka, rfl⟩ := ha
  obtain ⟨kb, rfl⟩ := hb
  exact ⟨ka - kb, by rw [Int.cast_sub, sub_div]⟩

theorem dec2_neg (a : ℚ) (ha : Dec2 a) : Dec2 (-a) := by
  obtain ⟨ka, rfl⟩ := ha
  exact ⟨-ka, by rw [Int.cast_neg, neg_div]⟩

theorem runLifecycle_mem_bounds (allowImm : Bool) (cooldown : ℚ)
    (er : ℕ → PosS → Prop) [∀ i p, Decidable (er i p)]
    (nr : ℕ → Option Side) (lo n : ℕ) (t : TradeI)
    (ht : t ∈ runLifecycle allowImm cooldown er nr lo n) :
    t.entryIdx < t.exitIdx ∧ t.exitIdx < n := by
  rcases le_or_lt lo n with h | h
  · have h0 : LoopInv lo ⟨[], none, -9999⟩ := by
      refine ⟨by simp, List.Pairwise.nil, ?_⟩
      intro p hp
      simp at hp
    have hinv := foldl_lifecycle_inv allowImm cooldown er nr (n - lo) lo _ h0
    have hb := hinv.1 t ht
    rw [Nat.add_sub_cancel' h] at hb
    exact hb
  · exfalso
    have hz : n - lo = 0 := Nat.sub_eq_zero_of_le (Nat.le_of_lt h)
    simp only [runLifecycle, hz] at ht
    simp at ht

theorem runBreakoutPctAux_mem_bounds (data : List OHLC) (raw : RawParams)
    (t : TradeI) (ht : t ∈ runBreakoutPctAux data raw) :
    t.entryIdx < t.exitIdx ∧ t.exitIdx < data.length :=
  runLifecycle_mem_bounds _ _ _ _ _ _ t (by simpa [runBreakoutPctAux] using ht)

theorem getD_close_mem (data : List OHLC) (i : ℕ) (hi : i < data.length) :
    (data.getD i dfltBar).close ∈ data.map (·.close) := by
  rw [List.getD_eq_getElem?_getD, List.getElem?_eq_getElem hi]
  simp only [Option.getD_some]
  exact List.mem_map.2 ⟨data[i], List.getElem_mem hi, rfl⟩

/-- C7, counterexample: prices need not be 2-decimal quantities, and the
pnl recorded on a trade is the price difference rounded to 2 decimals.  On
closes `[0.9, 0.9, 0.9, 0.9, 0.9, 1.004, 1.006]` Breakout-Percent (with
`threshold_pct = 0.001`, `max_hold_days = 1`) emits one long trade with
recorded `entry_price = 1.00 < 1.01 = exit_price` but `pnl = 0`, so for
this long trade `pnl > 0` does not hold although
`exit_price > entry_price` does. -/
theorem claim_c7_counterexample :
    runBreakoutPctAux demoRound rawRound = [⟨.long, 5, 6⟩] ∧
    runBreakoutPct demoRound rawRound =
      [⟨"2024-05-06", 1, "2024-05-07", 101 / 100, 0, 1992 / 1000000⟩] ∧
    (1 : ℚ) < 101 / 100 ∧ ¬ (0 : ℚ) < 0 := by
  refine ⟨?_, ?_, by norm_num, by norm_num⟩
  · norm_num [runBreakoutPctAux, runLifecycle, lifecycleStep, demoRound, mkBar,
      rawRound, List.range', entryRulePct, exitRuleBreakout, exitCond, posRet,
      rmax, rmin, breakoutPctLookback, breakoutPctThreshold, effAllowLong,
      effAllowShort, effMaxHold, effTakeProfit, effStopLoss, effCooldown,
      effAllowImm, Side.dir, List.getD, List.getElem?_cons_succ,
      List.getElem?_cons_zero, List.max?, List.min?, List.foldl_cons,
      List.foldl_nil]
  · norm_num [runBreakoutPct, runBreakoutPctAux, runLifecycle, lifecycleStep,
      demoRound, mkBar, rawRound, List.range', entryRulePct, exitRuleBreakout,
      exitCond, posRet, rmax, rmin, breakoutPctLookback, breakoutPctThreshold,
      effAllowLong, effAllowShort, effMaxHold, effTakeProfit, effStopLoss,
      effCooldown, effAllowImm, Side.dir, renderTrade, clampNum, round6, roundDec,
      round_eq, List.getD, List.getElem?_cons_succ, List.getElem?_cons_zero,
      List.max?, List.min?, List.foldl_cons, List.foldl_nil]

theorem getD_mem_of_lt (data : List OHLC) (i : ℕ) (hi : i < data.length) :
    data.getD i dfltBar ∈ data := by
  rw [List.getD_eq_getElem?_getD, List.getElem?_eq_getElem hi]
  simp only [Option.getD_some]
  exact List.getElem_mem hi

/-- C7 (amended): every trade emitted by Breakout-Percent derives its
fields from the closes `e` (entry bar) and `c` (exit bar) of the series:
`entry_price = round2(e)`, `exit_price = round2(c)`,
`pnl = round2((c-e)·dir)`, and the recorded return fraction is the spec's
`(c-e)/e` (long) / `(e-c)/e` (short) formula rounded to six decimals.
When every close of the series is an exact two-decimal quantity (prices
quoted in cents) the roundings are the identity and the return-sign
property holds as stated: a long trade has `pnl > 0` iff
`exit_price > entry_price`, a short trade has `pnl > 0` iff
`exit_price < entry_price`.  Without that proviso the two-decimal
rounding of `pnl` can break the biconditional (see the
counterexample). -/
theorem claim_c7_return_sign (data : List OHLC) (raw : RawParams) (t : Trade)
    (hdec : ∀ b ∈ data, Dec2 b.close)
    (ht : t ∈ runBreakoutPct data raw) :
    ∃ ti ∈ runBreakoutPctAux data raw,
      t = renderTrade data ti ∧
      t.return_pct = round6
        (((data.getD ti.exitIdx dfltBar).close -
            (data.getD ti.entryIdx dfltBar).close) /
          (data.getD ti.entryIdx dfltBar).close * ti.side.dir) ∧
      (ti.side = .long → (0 < t.pnl ↔ t.entry_price < t.exit_price)) ∧
      (ti.side = .short → (0 < t.pnl ↔ t.exit_price < t.entry_price)) := by
  obtain ⟨ti, hti, rfl⟩ := List.mem_map.1 ht
  obtain ⟨hlt, hxlen⟩ := runBreakoutPctAux_mem_bounds data raw ti hti
  have helen : ti.entryIdx < data.length := lt_trans hlt hxlen
  have hdecE : Dec2 (data.getD ti.entryIdx dfltBar).close :=
    hdec _ (getD_mem_of_lt data ti.entryIdx helen)
  have hdecC : Dec2 (data.getD ti.exitIdx dfltBar).close :=
    hdec _ (getD_mem_of_lt data ti.exitIdx hxlen)
  have hpnl : (renderTrade data ti).pnl =
      clampNum (((data.getD ti.exitIdx dfltBar).close -
        (data.getD ti.entryIdx dfltBar).close) * ti.side.dir) := rfl
  have hep : (renderTrade data ti).entry_price =
      clampNum (data.getD ti.entryIdx dfltBar).close := rfl
  have hxp : (renderTrade data ti).exit_price =
      clampNum (data.getD ti.exitIdx dfltBar).close := rfl
  refine ⟨ti, hti, rfl, rfl, ?_, ?_⟩
  · intro hs
    rw [hpnl, hep, hxp, hs]
    rw [clampNum_dec2 _ hdecE, clampNum_dec2 _ hdecC]
    rw [show Side.dir .long = 1 from rfl, mul_one]
    rw [clampNum_dec2 _ (dec2_sub _ _ hdecC hdecE)]
    exact sub_pos
  · intro hs
    rw [hpnl, hep, hxp, hs]
    rw [clampNum_dec2 _ hdecE, clampNum_dec2 _ hdecC]
    rw [show Side.dir .short = -1 from rfl, mul_neg_one]
    rw [clampNum_dec2 _ (dec2_neg _ (dec2_sub _ _ hdecC hdecE))]
    rw [neg_pos, sub_neg]

/-- C7, witness: the amended claim evaluated on the breakout scenario
series (integer closes, hence 2-decimal) and its single emitted trade. -/
theorem claim_c7_return_sign_witness :
    ∃ ti ∈ runBreakoutPctAux demoBkt rawBkt,
      (⟨"2024-03-04", 110, "2024-03-05", 105, -5, -45455 / 1000000⟩ : Trade) =
        renderTrade demoBkt ti ∧
      (⟨"2024-03-04", 110, "2024-03-05", 105, -5, -45455 / 1000000⟩ : Trade).return_pct =
        round6
          (((demoBkt.getD ti.exitIdx dfltBar).close -
              (demoBkt.getD ti.entryIdx dfltBar).close) /
            (demoBkt.getD ti.entryIdx dfltBar).close * ti.side.dir) ∧
      (ti.side = .long →
        (0 < (⟨"2024-03-04", 110, "2024-03-05", 105, -5, -45455 / 1000000⟩ : Trade).pnl ↔
          (⟨"2024-03-04", 110, "2024-03-05", 105, -5, -45455 / 1000000⟩ : Trade).entry_price <
            (⟨"2024-03-04", 110, "2024-03-05", 105, -5, -45455 / 1000000⟩ : Trade).exit_price)) ∧
      (ti.side = .short →
        (0 < (⟨"2024-03-04", 110, "2024-03-05", 105, -5, -45455 / 1000000⟩ : Trade).pnl ↔
          (⟨"2024-03-04", 110, "2024-03-05", 105, -5, -45455 / 1000000⟩ : Trade).exit_price <
            (⟨"2024-03-04", 110, "2024-03-05", 105, -5, -45455 / 1000000⟩ : Trade).entry_price)) :=
  claim_c7_return_sign demoBkt rawBkt _
    (by
      intro b hb
      simp only [demoBkt, mkBar, List.mem_cons, List.not_mem_nil, or_false] at hb
      rcases hb with rfl | rfl | rfl | rfl | rfl
      · exact ⟨10000, by norm_num⟩
      · exact ⟨10100, by norm_num⟩
      · exact ⟨10200, by norm_num⟩
      · exact ⟨11000, by norm_num⟩
      · exact ⟨10500, by norm_num⟩)
    (by
      rw [show runBreakoutPct demoBkt rawBkt =
        [⟨"2024-03-04", 110, "2024-03-05", 105, -5, -45455 / 1000000⟩] from by
          norm_num [runBreakoutPct, runBreakoutPctAux, runLifecycle, lifecycleStep,
            demoBkt, mkBar, rawBkt, List.range', entryRulePct, exitRuleBreakout,
            exitCond, posRet, rmax, rmin, breakoutPctLookback, breakoutPctThreshold,
            effAllowLong, effAllowShort, effMaxHold, effTakeProfit, effStopLoss,
            effCooldown, effAllowImm, Side.dir, renderTrade, clampNum, round6,
            roundDec, round_eq, List.getD, List.getElem?_cons_succ,
            List.getElem?_cons_zero, List.max?, List.min?, List.foldl_cons,
            List.foldl_nil]]
      exact List.mem_singleton_self _)
